import Mathlib

/-!
Verification of the mesh-analysis core of the blender-helpers repository.

The development shallowly embeds `src/lib/helpers/mesh_analysis.py` and the
`recommend_hollow` decision procedure of `src/scripts/analyze/analyze-for-print.py`
into Lean.  Real-valued geometry (positions, normals, centroids, volumes,
thresholds) is modelled over `ℚ`; Blender's bmesh view of a mesh is modelled as
an explicit structure carrying exactly the attributes the analysed code reads
(per-edge and per-vertex manifold flags supplied by the host, per-face normal,
centroid and area, the edge list connecting vertex indices).  Optional external
collaborators (the Print3D toolbox operators, which the Python code accesses
inside try/except blocks) are modelled as `Option`-valued inputs, `none` meaning
the add-on is absent and the exception path is taken.
-/

namespace BlenderHelpers

/-- Rational 3-vector, standing for mathutils.Vector over exact arithmetic. -/
structure Vec3 where
  x : ℚ
  y : ℚ
  z : ℚ
  deriving DecidableEq, Repr

def Vec3.add (a b : Vec3) : Vec3 := ⟨a.x + b.x, a.y + b.y, a.z + b.z⟩

def Vec3.sub (a b : Vec3) : Vec3 := ⟨a.x - b.x, a.y - b.y, a.z - b.z⟩

def Vec3.dot (a b : Vec3) : ℚ := a.x * b.x + a.y * b.y + a.z * b.z

def Vec3.cross (a b : Vec3) : Vec3 :=
  ⟨a.y * b.z - a.z * b.y, a.z * b.x - a.x * b.z, a.x * b.y - a.y * b.x⟩

def Vec3.zero : Vec3 := ⟨0, 0, 0⟩

/-- Division of a vector by a natural number (used for the centroid mean). -/
def Vec3.divNat (a : Vec3) (k : Nat) : Vec3 := ⟨a.x / k, a.y / k, a.z / k⟩

/-- ZERO_AREA_THRESHOLD of mesh_analysis.py: faces smaller than 1e-8 are degenerate. -/
def zeroAreaThreshold : ℚ := 1 / 100000000

/-- FLIPPED_NORMAL_RATIO of mesh_analysis.py: fraction 0.1 of faces. -/
def flippedNormalRatio : ℚ := 1 / 10

/-- One bmesh face as read by analyze_mesh: its normal (face.normal), its
median centre (face.calc_center_median()) and its area (face.calc_area()). -/
structure BMFace where
  normal : Vec3
  centroid : Vec3
  area : ℚ
  deriving DecidableEq, Repr

/-- One bmesh edge: the two endpoint vertex indices and the host-computed
edge.is_manifold flag (true iff the edge borders exactly two faces). -/
structure BMEdge (n : Nat) where
  v1 : Fin n
  v2 : Fin n
  is_manifold : Bool
  deriving DecidableEq, Repr

/-- The bmesh view of a mesh with `n` vertices: per-vertex host flags
(vert.is_manifold, whether vert.link_faces is nonempty), the edge list and the
face list.  This is exactly the read-only data analyze_mesh consumes. -/
structure BMesh (n : Nat) where
  vertManifold : Fin n → Bool
  vertLinkFaces : Fin n → Bool
  edges : List (BMEdge n)
  faces : List BMFace

/-- MeshIssues: the counters tracked during analysis (mesh_analysis.py). -/
structure MeshIssues where
  non_manifold_edges : Nat
  non_manifold_verts : Nat
  loose_geometry : Nat
  flipped_normals : Nat
  intersecting_faces : Nat
  zero_area_faces : Nat
  island_count : Nat
  deriving DecidableEq, Repr

/-- MeshIssues.__init__: all counters zero, island_count starts at 1. -/
def MeshIssues.init : MeshIssues :=
  { non_manifold_edges := 0
    non_manifold_verts := 0
    loose_geometry := 0
    flipped_normals := 0
    intersecting_faces := 0
    zero_area_faces := 0
    island_count := 1 }

/-- MeshIssues.has_issues: Python `any([...])` over the truthiness of the six
counters and of `island_count > 1`. -/
def MeshIssues.has_issues (i : MeshIssues) : Bool :=
  List.any
    [ decide (i.non_manifold_edges ≠ 0)
    , decide (i.non_manifold_verts ≠ 0)
    , decide (i.loose_geometry ≠ 0)
    , decide (i.flipped_normals ≠ 0)
    , decide (i.intersecting_faces ≠ 0)
    , decide (i.zero_area_faces ≠ 0)
    , decide (i.island_count > 1) ]
    (fun b => b)

/-- MeshIssues.is_manifold: no non-manifold edges and no non-manifold verts. -/
def MeshIssues.is_manifold (i : MeshIssues) : Bool :=
  i.non_manifold_edges == 0 && i.non_manifold_verts == 0

/-- MeshIssues.has_multiple_islands. -/
def MeshIssues.has_multiple_islands (i : MeshIssues) : Bool :=
  decide (i.island_count > 1)

/-- MeshIssues.suggested_scripts: builds the script list in the fixed order of
the Python method (fix-normals, then make-manifold, then voxel-merge). -/
def MeshIssues.suggested_scripts (i : MeshIssues) : List (String × String) :=
  (if i.flipped_normals > 0 then
    [("fix-normals", "Recalculate normals to fix flipped faces")]
  else []) ++
  (if i.non_manifold_edges > 0 ∨ i.non_manifold_verts > 0 ∨ i.loose_geometry > 0 then
    [("make-manifold", "Fix non-manifold geometry and holes")]
  else []) ++
  (if i.intersecting_faces > 0 ∨ i.island_count > 1 then
    [("voxel-merge", "Join islands / fix intersections via voxel remesh")]
  else [])

/-- Reasons accumulated by recommend_hollow.  The Python code builds formatted
strings; only their identity matters to the analysed properties, so each
distinct reason text is one constructor. -/
inductive HollowReason where
  | couldNotCalcVolume
  | notManifoldFixBefore
  | volumeExceedsThreshold
  | dimensionExceedsThreshold
  | smallEnoughSolid
  deriving DecidableEq, Repr

/-- VOLUME_THRESHOLD of recommend_hollow (10.0 cm³). -/
def volumeThresholdCm3 : ℚ := 10

/-- SIZE_THRESHOLD of recommend_hollow (40.0 mm). -/
def sizeThresholdMm : ℚ := 40

/-- WALL_THICKNESS of recommend_hollow (1.5 mm). -/
def wallThicknessMm : ℚ := 3 / 2

/-- recommend_hollow of analyze-for-print.py: decision string, reasons and the
recommended wall thickness.  `volume_cm3 = none` models Python `None`. -/
def recommend_hollow (volume_cm3 : Option ℚ) (max_dim_mm : ℚ) (is_manifold : Bool) :
    String × List HollowReason × ℚ :=
  match volume_cm3 with
  | none => ("UNKNOWN", [HollowReason.couldNotCalcVolume], wallThicknessMm)
  | some v =>
    if ¬ is_manifold then
      ("FIX FIRST", [HollowReason.notManifoldFixBefore], wallThicknessMm)
    else
      let reasons :=
        (if v > volumeThresholdCm3 then [HollowReason.volumeExceedsThreshold] else []) ++
        (if max_dim_mm > sizeThresholdMm then [HollowReason.dimensionExceedsThreshold] else [])
      if reasons ≠ [] then
        ("HOLLOW", reasons, wallThicknessMm)
      else
        ("SOLID", [HollowReason.smallEnoughSolid], wallThicknessMm)

/-- Helper: membership of voxel-merge among the suggested script names. -/
theorem voxel_merge_mem_iff (r : MeshIssues) :
    "voxel-merge" ∈ (r.suggested_scripts).map Prod.fst ↔
      0 < r.intersecting_faces ∨ 1 < r.island_count := by
  unfold MeshIssues.suggested_scripts
  split <;> split <;> split <;> simp_all <;> omega

/-- C1. suggested_scripts returns an ordered duplicate-free selection from the
fixed precedence list fix-normals, make-manifold, voxel-merge; each entry
present iff its trigger condition holds; a clean report yields the empty
list.  (The embedding is a pure function of the report, so two calls on the
same report are definitionally equal.) -/
theorem C1_suggested_scripts (r : MeshIssues) :
    List.Sublist ((r.suggested_scripts).map Prod.fst)
      ["fix-normals", "make-manifold", "voxel-merge"]
    ∧ ((r.suggested_scripts).map Prod.fst).Nodup
    ∧ ("fix-normals" ∈ (r.suggested_scripts).map Prod.fst ↔ 0 < r.flipped_normals)
    ∧ ("make-manifold" ∈ (r.suggested_scripts).map Prod.fst ↔
        0 < r.non_manifold_edges ∨ 0 < r.non_manifold_verts ∨ 0 < r.loose_geometry)
    ∧ ("voxel-merge" ∈ (r.suggested_scripts).map Prod.fst ↔
        0 < r.intersecting_faces ∨ 1 < r.island_count)
    ∧ (r.flipped_normals = 0 ∧ r.non_manifold_edges = 0 ∧ r.non_manifold_verts = 0 ∧
        r.loose_geometry = 0 ∧ r.intersecting_faces = 0 ∧ r.zero_area_faces = 0 ∧
        r.island_count ≤ 1 → r.suggested_scripts = []) := by
  unfold MeshIssues.suggested_scripts
  split <;> split <;> split <;>
    simp_all [List.Sublist] <;>
    first
      | omega
      | (constructor <;> omega)
      | (refine ⟨?_, ?_, ?_⟩ <;> omega)
      | (refine ⟨?_, ?_, ?_, ?_⟩ <;> omega)

/-- C1 witness: a clean report produces the empty suggestion list. -/
theorem C1_suggested_scripts_witness :
    (MeshIssues.init).suggested_scripts = [] :=
  (C1_suggested_scripts MeshIssues.init).2.2.2.2.2 (by decide)

/-- C2. recommend_hollow returns exactly one of the four decisions, checked in
order: null volume gives UNKNOWN; otherwise non-manifold gives FIX FIRST;
otherwise HOLLOW exactly when volume strictly exceeds 10 cm³ or the maximal
dimension strictly exceeds 40 mm, with wall thickness 1.5 mm; else SOLID. -/
theorem C2_recommend_hollow (v : Option ℚ) (d : ℚ) (man : Bool) :
    ((recommend_hollow v d man).1 = "UNKNOWN" ∨ (recommend_hollow v d man).1 = "FIX FIRST" ∨
      (recommend_hollow v d man).1 = "HOLLOW" ∨ (recommend_hollow v d man).1 = "SOLID")
    ∧ ((recommend_hollow v d man).1 = "UNKNOWN" ↔ v = none)
    ∧ ((recommend_hollow v d man).1 = "FIX FIRST" ↔ v ≠ none ∧ man = false)
    ∧ (∀ vc : ℚ, v = some vc → man = true →
        (((recommend_hollow v d man).1 = "HOLLOW" ↔ 10 < vc ∨ 40 < d)
        ∧ ((recommend_hollow v d man).1 = "SOLID" ↔ ¬ 10 < vc ∧ ¬ 40 < d)))
    ∧ (recommend_hollow v d man).2.2 = 3 / 2 := by
  unfold recommend_hollow volumeThresholdCm3 sizeThresholdMm wallThicknessMm
  rcases v with _ | vc
  · simp
  · rcases man with _ | _
    · simp
    · by_cases h10 : 10 < vc <;> by_cases h40 : 40 < d <;>
        simp [h10, h40] <;> exact not_lt.mp h10

/-- C2 witness: at the exact boundary (10 cm³, 40 mm, manifold) the decision is
SOLID (strict thresholds), and at volume 11 cm³ it is HOLLOW. -/
theorem C2_recommend_hollow_witness :
    (recommend_hollow (some 10) 40 true).1 = "SOLID"
    ∧ (recommend_hollow (some 11) 40 true).1 = "HOLLOW" :=
  ⟨((C2_recommend_hollow (some 10) 40 true).2.2.2.1 10 rfl rfl).2.mpr (by decide),
   ((C2_recommend_hollow (some 11) 40 true).2.2.2.1 11 rfl rfl).1.mpr
     (Or.inl (by decide))⟩

/-- C4. The derived predicates: is_manifold iff both non-manifold counters are
zero; has_multiple_islands iff island_count exceeds 1; has_issues iff some
counter is nonzero or island_count exceeds 1. -/
theorem C4_derived_predicates (i : MeshIssues) :
    (i.is_manifold = true ↔ i.non_manifold_edges = 0 ∧ i.non_manifold_verts = 0)
    ∧ (i.has_multiple_islands = true ↔ 1 < i.island_count)
    ∧ (i.has_issues = true ↔
        (i.non_manifold_edges ≠ 0 ∨ i.non_manifold_verts ≠ 0 ∨ i.loose_geometry ≠ 0 ∨
         i.flipped_normals ≠ 0 ∨ i.intersecting_faces ≠ 0 ∨ i.zero_area_faces ≠ 0 ∨
         1 < i.island_count)) := by
  refine ⟨?_, ?_, ?_⟩ <;>
    simp [MeshIssues.is_manifold, MeshIssues.has_multiple_islands, MeshIssues.has_issues]

section IslandCounting

variable {n : Nat}

/-- One edge links vertices `a` and `b` (in either orientation). -/
def edgeLinks (e : BMEdge n) (a b : Fin n) : Bool :=
  (e.v1 == a && e.v2 == b) || (e.v1 == b && e.v2 == a)

/-- Boolean adjacency of the vertex-edge graph: some edge links `a` and `b`. -/
def BMesh.adjb (m : BMesh n) (a b : Fin n) : Bool :=
  m.edges.any (fun e => edgeLinks e a b)

/-- Canonical neighbour enumeration, mirroring the Python loop
`for edge in vert.link_edges: other = edge.other_vert(vert)`. -/
def BMesh.nbrs (m : BMesh n) (v : Fin n) : List (Fin n) :=
  m.edges.filterMap
    (fun e => if e.v1 = v then some e.v2 else if e.v2 = v then some e.v1 else none)

/-- Iterative flood fill with an explicit stack, exactly the inner while-loop
of count_islands: pop a vertex, skip it if already visited, otherwise mark it
and push its unvisited neighbours. -/
def floodFill (nbrs : Fin n → List (Fin n)) :
    List (Fin n) → Finset (Fin n) → Finset (Fin n)
  | [], visited => visited
  | v :: stack, visited =>
    if h : v ∈ visited then
      floodFill nbrs stack visited
    else
      floodFill nbrs (((nbrs v).filter (fun w => w ∉ visited)) ++ stack) (insert v visited)
termination_by stack visited => (n - visited.card, stack.length)
decreasing_by
  · exact Prod.Lex.right _ (Nat.lt_succ_self _)
  · apply Prod.Lex.left
    have h1 : (insert v visited).card = visited.card + 1 :=
      Finset.card_insert_of_not_mem h
    have h2 : (insert v visited).card ≤ n := by
      simpa using Finset.card_le_univ (insert v visited)
    omega

/-- Outer loop of count_islands: walk the vertices in the given order, start a
new flood fill (and count one island) at every not-yet-visited vertex. -/
def countIslandsAux (nbrs : Fin n → List (Fin n)) :
    List (Fin n) → Finset (Fin n) → Nat
  | [], _ => 0
  | v :: rest, visited =>
    if v ∈ visited then
      countIslandsAux nbrs rest visited
    else
      1 + countIslandsAux nbrs rest (floodFill nbrs [v] visited)

/-- count_islands with the traversal order and the neighbour enumeration as
explicit parameters (the Python code fixes both to bmesh iteration order). -/
def countIslandsWith (order : List (Fin n)) (nbrs : Fin n → List (Fin n)) : Nat :=
  if n = 0 then 0 else countIslandsAux nbrs order ∅

/-- count_islands of mesh_analysis.py: vertices in index order, neighbours in
edge-list order, empty mesh short-circuited to 0. -/
def count_islands (m : BMesh n) : Nat :=
  countIslandsWith (List.finRange n) m.nbrs

/-- Propositional adjacency of the vertex-edge graph. -/
def BMesh.Adj (m : BMesh n) (a b : Fin n) : Prop := m.adjb a b = true

/-- Reachability: the reflexive-transitive closure of adjacency. -/
def BMesh.Reach (m : BMesh n) : Fin n → Fin n → Prop := Relation.ReflTransGen m.Adj

theorem BMesh.adj_symm (m : BMesh n) {a b : Fin n} (h : m.Adj a b) : m.Adj b a := by
  simp only [BMesh.Adj, BMesh.adjb, List.any_eq_true, edgeLinks] at h ⊢
  obtain ⟨e, he, hor⟩ := h
  exact ⟨e, he, by revert hor; simp [Bool.or_comm]⟩

theorem BMesh.reach_symm (m : BMesh n) {a b : Fin n} (h : m.Reach a b) : m.Reach b a := by
  induction h with
  | refl => exact Relation.ReflTransGen.refl
  | tail _ hadj ih =>
    exact Relation.ReflTransGen.trans (Relation.ReflTransGen.single (m.adj_symm hadj)) ih

/-- Reachability is an equivalence; its classes are the islands of the mesh. -/
def BMesh.reachSetoid (m : BMesh n) : Setoid (Fin n) :=
  ⟨m.Reach, ⟨fun _ => Relation.ReflTransGen.refl, m.reach_symm, Relation.ReflTransGen.trans⟩⟩

/-- Connected components (islands) of the vertex-edge adjacency graph. -/
def BMesh.Island (m : BMesh n) : Type := Quotient m.reachSetoid

/-- The neighbour list enumerates exactly the adjacent vertices. -/
theorem BMesh.mem_nbrs (m : BMesh n) (a b : Fin n) : b ∈ m.nbrs a ↔ m.Adj a b := by
  simp only [BMesh.nbrs, List.mem_filterMap, BMesh.Adj, BMesh.adjb, List.any_eq_true, edgeLinks,
    Bool.or_eq_true, Bool.and_eq_true, beq_iff_eq]
  refine exists_congr fun e => and_congr_right fun _ => ?_
  by_cases h1 : e.v1 = a <;> by_cases h2 : e.v2 = a <;> simp [h1, h2]

/-- A visited set is closed when no edge leaves it. -/
def BMesh.ClosedSet (m : BMesh n) (V : Finset (Fin n)) : Prop :=
  ∀ a ∈ V, ∀ b, m.Adj a b → b ∈ V

theorem BMesh.not_mem_closed_of_reach (m : BMesh n) {V : Finset (Fin n)}
    (hV : m.ClosedSet V) {v a : Fin n} (hv : v ∉ V) (h : m.Reach v a) : a ∉ V := by
  induction h with
  | refl => exact hv
  | tail _ hadj ih =>
    intro hb
    exact ih (hV _ hb _ (m.adj_symm hadj))

theorem floodFill_mono (nbrs : Fin n → List (Fin n)) (stack : List (Fin n))
    (visited : Finset (Fin n)) : visited ⊆ floodFill nbrs stack visited := by
  induction stack, visited using floodFill.induct nbrs with
  | case1 visited => rw [floodFill]
  | case2 v stack visited h ih => rw [floodFill]; simpa [h] using ih
  | case3 v stack visited h ih =>
    rw [floodFill]
    simp only [dif_neg h]
    exact (Finset.subset_insert _ _).trans ih

theorem stack_subset_floodFill (nbrs : Fin n → List (Fin n)) (stack : List (Fin n))
    (visited : Finset (Fin n)) : ∀ s ∈ stack, s ∈ floodFill nbrs stack visited := by
  induction stack, visited using floodFill.induct nbrs with
  | case1 visited => intro s hs; cases hs
  | case2 v stack visited h ih =>
    intro s hs
    rw [floodFill]
    simp only [dif_pos h]
    rcases List.mem_cons.mp hs with rfl | hs
    · exact floodFill_mono nbrs stack visited h
    · exact ih s hs
  | case3 v stack visited h ih =>
    intro s hs
    rw [floodFill]
    simp only [dif_neg h]
    rcases List.mem_cons.mp hs with rfl | hs
    · exact floodFill_mono nbrs _ _ (Finset.mem_insert_self s visited)
    · exact ih s (List.mem_append_right _ hs)

/-- Invariant of the flood-fill loop: every already-visited vertex outside the
initial closed set `V` has each of its neighbours either visited or pending on
the stack. -/
def FloodInv (m : BMesh n) (V : Finset (Fin n)) (stack : List (Fin n))
    (visited : Finset (Fin n)) : Prop :=
  ∀ a ∈ visited, a ∉ V → ∀ b, m.Adj a b → b ∈ visited ∨ b ∈ stack

theorem floodFill_closed_of_inv (m : BMesh n) (V : Finset (Fin n))
    (nbrs : Fin n → List (Fin n)) (hn : ∀ a b, b ∈ nbrs a ↔ m.Adj a b)
    (stack : List (Fin n)) (visited : Finset (Fin n)) :
    FloodInv m V stack visited →
    ∀ a ∈ floodFill nbrs stack visited, a ∉ V →
      ∀ b, m.Adj a b → b ∈ floodFill nbrs stack visited := by
  induction stack, visited using floodFill.induct nbrs with
  | case1 visited =>
    intro hinv
    rw [floodFill]
    intro a ha haV b hab
    rcases hinv a ha haV b hab with hb | hb
    · exact hb
    · cases hb
  | case2 v stack visited h ih =>
    intro hinv
    rw [floodFill]
    simp only [dif_pos h]
    refine ih ?_
    intro a ha haV b hab
    rcases hinv a ha haV b hab with hb | hb
    · exact Or.inl hb
    · rcases List.mem_cons.mp hb with rfl | hb
      · exact Or.inl h
      · exact Or.inr hb
  | case3 v stack visited h ih =>
    intro hinv
    rw [floodFill]
    simp only [dif_neg h]
    refine ih ?_
    intro a ha haV b hab
    rcases Finset.mem_insert.mp ha with rfl | ha
    · by_cases hb : b ∈ visited
      · exact Or.inl (Finset.mem_insert_of_mem hb)
      · refine Or.inr (List.mem_append_left _ ?_)
        rw [List.mem_filter]
        exact ⟨(hn a b).mpr hab, by simpa using hb⟩
    · rcases hinv a ha haV b hab with hb | hb
      · exact Or.inl (Finset.mem_insert_of_mem hb)
      · rcases List.mem_cons.mp hb with rfl | hb
        · exact Or.inl (Finset.mem_insert_self _ _)
        · exact Or.inr (List.mem_append_right _ hb)

theorem floodFill_subset (m : BMesh n) (nbrs : Fin n → List (Fin n))
    (hn : ∀ a b, b ∈ nbrs a ↔ m.Adj a b) (S : Fin n → Prop)
    (hS : ∀ a b, S a → m.Adj a b → S b)
    (V : Finset (Fin n)) (stack : List (Fin n)) (visited : Finset (Fin n)) :
    (∀ s ∈ stack, S s) → (∀ a ∈ visited, a ∈ V ∨ S a) →
    ∀ a ∈ floodFill nbrs stack visited, a ∈ V ∨ S a := by
  induction stack, visited using floodFill.induct nbrs with
  | case1 visited =>
    intro _ hvis
    rw [floodFill]
    exact hvis
  | case2 v stack visited h ih =>
    intro hstack hvis
    rw [floodFill]
    simp only [dif_pos h]
    exact ih (fun s hs => hstack s (List.mem_cons_of_mem v hs)) hvis
  | case3 v stack visited h ih =>
    intro hstack hvis
    rw [floodFill]
    simp only [dif_neg h]
    refine ih ?_ ?_
    · intro s hs
      rcases List.mem_append.mp hs with hs | hs
      · rw [List.mem_filter] at hs
        exact hS v s (hstack v (List.mem_cons_self v stack)) ((hn v s).mp hs.1)
      · exact hstack s (List.mem_cons_of_mem v hs)
    · intro a ha
      rcases Finset.mem_insert.mp ha with rfl | ha
      · exact Or.inr (hstack a (List.mem_cons_self a stack))
      · exact hvis a ha

/-- Characterisation of one flood-fill invocation from an unvisited vertex over
a closed visited set: it marks exactly the old set plus everything reachable
from the start vertex. -/
theorem floodFill_char (m : BMesh n) (nbrs : Fin n → List (Fin n))
    (hn : ∀ a b, b ∈ nbrs a ↔ m.Adj a b) (V : Finset (Fin n))
    (hV : m.ClosedSet V) (v : Fin n) (hv : v ∉ V) :
    ∀ w, w ∈ floodFill nbrs [v] V ↔ w ∈ V ∨ m.Reach v w := by
  intro w
  constructor
  · intro hw
    refine floodFill_subset m nbrs hn (m.Reach v) (fun a b => fun hr hadj => hr.tail hadj)
      V [v] V ?_ (fun a ha => Or.inl ha) w hw
    intro s hs
    rw [List.mem_singleton] at hs
    subst hs
    exact Relation.ReflTransGen.refl
  · rintro (hw | hw)
    · exact floodFill_mono nbrs [v] V hw
    · have hclosed := floodFill_closed_of_inv m V nbrs hn [v] V
        (fun a ha haV => absurd ha haV)
      induction hw with
      | refl => exact stack_subset_floodFill nbrs [v] V v (by simp)
      | tail hr hadj ih =>
        exact hclosed _ ih (m.not_mem_closed_of_reach hV hv hr) _ hadj

/-- Reachability is decidable: flood fill from `a` computes the set reachable
from `a`. -/
def BMesh.reachDecidable (m : BMesh n) : DecidableRel m.Reach := fun a b =>
  decidable_of_iff (b ∈ floodFill m.nbrs [a] (∅ : Finset (Fin n)))
    (by
      rw [floodFill_char m m.nbrs m.mem_nbrs ∅
        (fun x hx => absurd hx (Finset.not_mem_empty x)) a (Finset.not_mem_empty a) b]
      simp)

instance (m : BMesh n) : DecidableEq (Quotient m.reachSetoid) := fun q1 q2 =>
  Quotient.recOnSubsingleton₂ q1 q2
    (fun a b =>
      letI : Decidable (m.Reach a b) := m.reachDecidable a b
      decidable_of_iff (m.Reach a b) (@Quotient.eq (Fin n) m.reachSetoid a b).symm)

instance (m : BMesh n) : Fintype (Quotient m.reachSetoid) :=
  Fintype.ofSurjective (Quotient.mk m.reachSetoid)
    (fun q => by
      obtain ⟨v⟩ := q
      exact ⟨v, rfl⟩)

/-- One flood fill from an unvisited vertex over a closed set yields a closed
set again. -/
theorem floodFill_closedSet (m : BMesh n) (nbrs : Fin n → List (Fin n))
    (hn : ∀ a b, b ∈ nbrs a ↔ m.Adj a b) (V : Finset (Fin n))
    (hV : m.ClosedSet V) (v : Fin n) (hv : v ∉ V) :
    m.ClosedSet (floodFill nbrs [v] V) := by
  intro a ha b hab
  rw [floodFill_char m nbrs hn V hV v hv] at ha ⊢
  rcases ha with ha | ha
  · exact Or.inl (hV a ha b hab)
  · exact Or.inr (ha.tail hab)

/-- The outer loop counts exactly the islands that have a representative in
the remaining traversal order outside the visited set. -/
theorem countIslandsAux_card (m : BMesh n) (nbrs : Fin n → List (Fin n))
    (hn : ∀ a b, b ∈ nbrs a ↔ m.Adj a b) (order : List (Fin n)) :
    ∀ visited : Finset (Fin n), m.ClosedSet visited →
    countIslandsAux nbrs order visited =
      ((order.filter (fun v => decide (v ∉ visited))).toFinset.image
        (fun v => Quotient.mk m.reachSetoid v)).card := by
  induction order with
  | nil => intro visited _; simp [countIslandsAux]
  | cons v rest ih =>
    intro visited hV
    by_cases h : v ∈ visited
    · rw [countIslandsAux, if_pos h]
      have hfilter : (v :: rest).filter (fun w => decide (w ∉ visited)) =
          rest.filter (fun w => decide (w ∉ visited)) := by
        rw [List.filter_cons]
        simp [h]
      rw [hfilter]
      exact ih visited hV
    · rw [countIslandsAux, if_neg h]
      have hchar := floodFill_char m nbrs hn visited hV v h
      have hclosedR := floodFill_closedSet m nbrs hn visited hV v h
      rw [ih (floodFill nbrs [v] visited) hclosedR]
      have hfilter : (v :: rest).filter (fun w => decide (w ∉ visited)) =
          v :: rest.filter (fun w => decide (w ∉ visited)) := by
        rw [List.filter_cons]
        simp [h]
      rw [hfilter]
      have hsets :
          ((v :: rest.filter (fun w => decide (w ∉ visited))).toFinset.image
            (fun w => Quotient.mk m.reachSetoid w)) =
          insert (Quotient.mk m.reachSetoid v)
            ((rest.filter (fun w => decide (w ∉ floodFill nbrs [v] visited))).toFinset.image
              (fun w => Quotient.mk m.reachSetoid w)) := by
        ext q
        simp only [List.toFinset_cons, Finset.image_insert, Finset.mem_insert,
          Finset.mem_image, List.mem_toFinset, List.mem_filter, decide_eq_true_eq]
        constructor
        · rintro (rfl | ⟨w, ⟨hwrest, hwvis⟩, rfl⟩)
          · exact Or.inl rfl
          · by_cases hr : m.Reach v w
            · exact Or.inl (Quotient.sound hr).symm
            · refine Or.inr ⟨w, ⟨hwrest, ?_⟩, rfl⟩
              rw [hchar w]
              intro hcase
              rcases hcase with hc | hc
              · exact hwvis hc
              · exact hr hc
        · rintro (rfl | ⟨w, ⟨hwrest, hwR⟩, rfl⟩)
          · exact Or.inl rfl
          · refine Or.inr ⟨w, ⟨hwrest, ?_⟩, rfl⟩
            intro hwvis
            exact hwR (floodFill_mono nbrs [v] visited hwvis)
      rw [hsets]
      rw [Finset.card_insert_of_not_mem]
      · omega
      · intro hmem
        rw [Finset.mem_image] at hmem
        obtain ⟨w, hw, hq⟩ := hmem
        rw [List.mem_toFinset, List.mem_filter, decide_eq_true_eq] at hw
        have hr : m.Reach v w := Quotient.exact hq.symm
        exact hw.2 ((hchar w).mpr (Or.inr hr))

/-- count_islands with any complete traversal order and any faithful neighbour
enumeration computes the number of islands (reachability classes). -/
theorem countIslandsWith_eq (m : BMesh n) (order : List (Fin n))
    (nbrs : Fin n → List (Fin n)) (hn : ∀ a b, b ∈ nbrs a ↔ m.Adj a b)
    (ho : ∀ v, v ∈ order) :
    countIslandsWith order nbrs = Nat.card (Quotient m.reachSetoid) := by
  unfold countIslandsWith
  by_cases hz : n = 0
  · subst hz
    rw [if_pos rfl]
    haveI he : IsEmpty (Quotient m.reachSetoid) :=
      ⟨fun q => by
        obtain ⟨v⟩ := q
        exact v.elim0⟩
    rw [Nat.card_of_isEmpty]
  · rw [if_neg hz]
    rw [countIslandsAux_card m nbrs hn order ∅
      (fun a ha => absurd ha (Finset.not_mem_empty a))]
    have hfilter : order.filter (fun v => decide (v ∉ (∅ : Finset (Fin n)))) = order := by
      simp
    rw [hfilter]
    have huniv : order.toFinset = Finset.univ :=
      Finset.eq_univ_iff_forall.mpr (fun v => List.mem_toFinset.mpr (ho v))
    rw [huniv]
    have himg : (Finset.univ.image (fun v => Quotient.mk m.reachSetoid v)) = Finset.univ := by
      apply Finset.eq_univ_iff_forall.mpr
      intro q
      obtain ⟨w⟩ := q
      exact Finset.mem_image_of_mem _ (Finset.mem_univ w)
    rw [himg, Finset.card_univ, Nat.card_eq_fintype_card]

/-- With no edges, reachability degenerates to equality. -/
theorem reach_eq_of_no_edges (m : BMesh n) (he : m.edges = []) {a b : Fin n}
    (h : m.Reach a b) : a = b := by
  induction h with
  | refl => rfl
  | tail _ hadj ih =>
    exfalso
    simp [BMesh.Adj, BMesh.adjb, he] at hadj

/-- C5. count_islands returns 0 for a mesh with zero vertices; the number of
vertices for a mesh with no edges (each isolated point its own island); and in
general the number of connected components (reachability classes) of the
vertex-edge adjacency graph, computed by explicit-stack flood fill. -/
theorem C5_count_islands :
    (∀ m : BMesh 0, count_islands m = 0)
    ∧ (∀ (k : Nat) (m : BMesh k), m.edges = [] → count_islands m = k)
    ∧ (∀ (k : Nat) (m : BMesh k), count_islands m = Nat.card (Quotient m.reachSetoid)) := by
  have hgen : ∀ (k : Nat) (m : BMesh k),
      count_islands m = Nat.card (Quotient m.reachSetoid) := by
    intro k m
    exact countIslandsWith_eq m (List.finRange k) m.nbrs m.mem_nbrs List.mem_finRange
  refine ⟨fun m => rfl, ?_, hgen⟩
  intro k m he
  rw [hgen k m]
  have hequiv : Quotient m.reachSetoid ≃ Fin k :=
    { toFun := Quotient.lift id (fun a b h => reach_eq_of_no_edges m he h)
      invFun := fun v => Quotient.mk m.reachSetoid v
      left_inv := by
        intro q
        obtain ⟨v⟩ := q
        rfl
      right_inv := fun v => rfl }
  rw [Nat.card_congr hequiv, Nat.card_eq_fintype_card, Fintype.card_fin]

/-- Concrete two-point mesh with no edges, used as a witness input. -/
def isolatedPairMesh : BMesh 2 :=
  { vertManifold := fun _ => true
    vertLinkFaces := fun _ => false
    edges := []
    faces := [] }

/-- C5 witness: the two-isolated-vertices mesh has two islands. -/
theorem C5_count_islands_witness : count_islands isolatedPairMesh = 2 :=
  C5_count_islands.2.1 2 isolatedPairMesh rfl

end IslandCounting

section Analysis

variable {n : Nat}

/-- Python counting loop: walk the list and increment a counter on matches. -/
def countLoop {α : Type} (p : α → Bool) (l : List α) : Nat :=
  l.foldl (fun acc x => if p x then acc + 1 else acc) 0

theorem countLoop_go {α : Type} (p : α → Bool) (l : List α) :
    ∀ acc : Nat, l.foldl (fun acc x => if p x then acc + 1 else acc) acc = acc + l.countP p := by
  induction l with
  | nil => intro acc; simp
  | cons x xs ih =>
    intro acc
    rw [List.foldl_cons, ih, List.countP_cons]
    by_cases h : p x <;> simp [h] <;> omega

theorem countLoop_eq_countP {α : Type} (p : α → Bool) (l : List α) :
    countLoop p l = l.countP p := by
  rw [countLoop, countLoop_go]
  omega

/-- Mesh centre used by the flipped-normal heuristic: the mean of the face
centroids, `sum((f.calc_center_median() for f in bm.faces), Vector()) / len(bm.faces)`. -/
def meshCenter (faces : List BMFace) : Vec3 :=
  Vec3.divNat (faces.foldl (fun acc f => Vec3.add acc f.centroid) Vec3.zero) faces.length

/-- The tentative flipped-face test of analyze_mesh: the face normal has
strictly positive dot product with the vector from the face centroid to the
mesh centre. -/
def faceFlipped (center : Vec3) (f : BMFace) : Bool :=
  decide (0 < Vec3.dot f.normal (Vec3.sub center f.centroid))

/-- analyze_mesh of mesh_analysis.py, with the vertex traversal order and the
neighbour enumeration of the island count as explicit parameters.  The field
updates happen in the order of the Python function; the flipped-normal count
is only written when the tentative count strictly exceeds
`len(bm.faces) * FLIPPED_NORMAL_RATIO`. -/
def analyzeMeshWith (m : BMesh n) (order : List (Fin n))
    (nbrs : Fin n → List (Fin n)) : MeshIssues :=
  let issues := MeshIssues.init
  let issues := { issues with
    non_manifold_edges := countLoop (fun e : BMEdge n => ! e.is_manifold) m.edges }
  let issues := { issues with
    non_manifold_verts := countLoop (fun v => ! m.vertManifold v) (List.finRange n) }
  let issues := { issues with
    loose_geometry := countLoop (fun v => ! m.vertLinkFaces v) (List.finRange n) }
  let issues := { issues with
    zero_area_faces := countLoop (fun f : BMFace => decide (f.area < zeroAreaThreshold)) m.faces }
  let issues := { issues with island_count := countIslandsWith order nbrs }
  if m.faces ≠ [] then
    let center := meshCenter m.faces
    let flipped := countLoop (faceFlipped center) m.faces
    if (m.faces.length : ℚ) * flippedNormalRatio < (flipped : ℚ) then
      { issues with flipped_normals := flipped }
    else
      issues
  else
    issues

/-- analyze_mesh as the Python code runs it: bmesh iteration order. -/
def analyze_mesh (m : BMesh n) : MeshIssues :=
  analyzeMeshWith m (List.finRange n) m.nbrs

/-- C3. On a mesh with at least one face, a face is tentatively flagged iff
its normal dots strictly positively with the vector from its centroid to the
mesh centroid (mean of face centroids); the reported flipped count equals the
tentative count when that count strictly exceeds 0.10 times the face count,
and is 0 otherwise. -/
theorem C3_flipped_normals (m : BMesh n) (hf : m.faces ≠ []) :
    (analyze_mesh m).flipped_normals =
      (if (m.faces.length : ℚ) * flippedNormalRatio <
          ((m.faces.filter
            (fun f => decide (0 < Vec3.dot f.normal
              (Vec3.sub (meshCenter m.faces) f.centroid)))).length : ℚ) then
        (m.faces.filter
          (fun f => decide (0 < Vec3.dot f.normal
            (Vec3.sub (meshCenter m.faces) f.centroid)))).length
      else 0) := by
  have hcount : countLoop (faceFlipped (meshCenter m.faces)) m.faces =
      (m.faces.filter
        (fun f => decide (0 < Vec3.dot f.normal
          (Vec3.sub (meshCenter m.faces) f.centroid)))).length := by
    rw [countLoop_eq_countP, List.countP_eq_length_filter]
    rfl
  unfold analyze_mesh analyzeMeshWith
  rw [if_pos hf]
  simp only [hcount]
  split
  · rfl
  · rfl

/-- Concrete one-face mesh used as a witness input. -/
def singleFaceMesh : BMesh 1 :=
  { vertManifold := fun _ => true
    vertLinkFaces := fun _ => true
    edges := []
    faces := [{ normal := ⟨0, 0, 1⟩, centroid := ⟨0, 0, 0⟩, area := 1 }] }

/-- C3 witness: the single-face mesh has a nonempty face list, and the theorem
applies to it. -/
theorem C3_flipped_normals_witness :
    (analyze_mesh singleFaceMesh).flipped_normals =
      (if (singleFaceMesh.faces.length : ℚ) * flippedNormalRatio <
          ((singleFaceMesh.faces.filter
            (fun f => decide (0 < Vec3.dot f.normal
              (Vec3.sub (meshCenter singleFaceMesh.faces) f.centroid)))).length : ℚ) then
        (singleFaceMesh.faces.filter
          (fun f => decide (0 < Vec3.dot f.normal
            (Vec3.sub (meshCenter singleFaceMesh.faces) f.centroid)))).length
      else 0) :=
  C3_flipped_normals singleFaceMesh (by simp [singleFaceMesh])

/-- C9. Two runs of the diagnostic pass over the same mesh, with any two
complete vertex traversal orders and any two faithful neighbour enumerations,
produce the same island count and bit-identical MeshIssues reports. -/
theorem C9_determinism (k : Nat) (m : BMesh k)
    (o1 o2 : List (Fin k)) (nb1 nb2 : Fin k → List (Fin k))
    (h1 : ∀ a b, b ∈ nb1 a ↔ m.Adj a b) (h2 : ∀ a b, b ∈ nb2 a ↔ m.Adj a b)
    (ho1 : ∀ v, v ∈ o1) (ho2 : ∀ v, v ∈ o2) :
    countIslandsWith o1 nb1 = countIslandsWith o2 nb2
    ∧ analyzeMeshWith m o1 nb1 = analyzeMeshWith m o2 nb2 := by
  have hcount : countIslandsWith o1 nb1 = countIslandsWith o2 nb2 := by
    rw [countIslandsWith_eq m o1 nb1 h1 ho1, countIslandsWith_eq m o2 nb2 h2 ho2]
  exact ⟨hcount, by unfold analyzeMeshWith; rw [hcount]⟩

/-- Concrete two-vertex one-edge mesh used as a witness input. -/
def edgePairMesh : BMesh 2 :=
  { vertManifold := fun _ => true
    vertLinkFaces := fun _ => false
    edges := [{ v1 := 0, v2 := 1, is_manifold := false }]
    faces := [] }

/-- C9 witness: on a concrete mesh, traversing the vertices in the two
opposite orders (and enumerating neighbours in reversed order the second time)
yields the same island count and the same report. -/
theorem C9_determinism_witness :
    countIslandsWith [(0 : Fin 2), 1] edgePairMesh.nbrs =
      countIslandsWith [(1 : Fin 2), 0] (fun v => (edgePairMesh.nbrs v).reverse)
    ∧ analyzeMeshWith edgePairMesh [(0 : Fin 2), 1] edgePairMesh.nbrs =
      analyzeMeshWith edgePairMesh [(1 : Fin 2), 0] (fun v => (edgePairMesh.nbrs v).reverse) :=
  C9_determinism 2 edgePairMesh [0, 1] [1, 0] edgePairMesh.nbrs
    (fun v => (edgePairMesh.nbrs v).reverse)
    (fun a b => edgePairMesh.mem_nbrs a b)
    (fun a b => (List.mem_reverse).trans (edgePairMesh.mem_nbrs a b))
    (by decide) (by decide)

/-- C10. analyze_mesh never writes the intersecting-face counter: the returned
report always carries intersecting_faces = 0, so a voxel-merge suggestion from
analyze_mesh alone can only come from the island count; a nonzero
intersection count exists only after the caller stores check_intersections
output into the report. -/
theorem C10_no_intersections (m : BMesh n) :
    (analyze_mesh m).intersecting_faces = 0
    ∧ ("voxel-merge" ∈ ((analyze_mesh m).suggested_scripts).map Prod.fst ↔
        1 < (analyze_mesh m).island_count) := by
  have hz : (analyze_mesh m).intersecting_faces = 0 := by
    simp only [analyze_mesh, analyzeMeshWith]
    split
    · split <;> rfl
    · rfl
  refine ⟨hz, ?_⟩
  rw [voxel_merge_mem_iff (analyze_mesh m), hz]
  omega

end Analysis

section Metrics

/-- Signed volume of the tetrahedron spanned by the origin and one triangle:
a · (b × c) / 6, the divergence-theorem contribution of one face. -/
def triSignedVolume (t : Vec3 × Vec3 × Vec3) : ℚ :=
  Vec3.dot t.1 (Vec3.cross t.2.1 t.2.2) / 6

/-- bm.calc_volume(): the signed tetrahedron sum over the triangulated faces
of the mesh. -/
def calc_volume (tris : List (Vec3 × Vec3 × Vec3)) : ℚ :=
  (tris.map triSignedVolume).sum

/-- calculate_volume of mesh_analysis.py, in cm³.  `print3d_volume` models
the Print3D toolbox operator output (`none` when the add-on is absent and the
operator call raises); the bmesh fallback returns the absolute value of the
signed sum, scaled mm³ → cm³. -/
def calculate_volume (print3d_volume : Option ℚ) (use_print3d : Bool)
    (tris : List (Vec3 × Vec3 × Vec3)) : Option ℚ :=
  if use_print3d then
    match print3d_volume with
    | some v => some (v / 1000)
    | none => some (|calc_volume tris| / 1000)
  else
    some (|calc_volume tris| / 1000)

/-- calculate_area of mesh_analysis.py, in cm²: only the Print3D toolbox path
exists, so an absent add-on yields None. -/
def calculate_area (print3d_area : Option ℚ) : Option ℚ :=
  print3d_area.map (fun a => a / 100)

/-- check_intersections of mesh_analysis.py: the Print3D selected-face count,
or 0 when the add-on raises / is unavailable. -/
def check_intersections (print3d_count : Option Nat) : Nat :=
  match print3d_count with
  | some k => k
  | none => 0

/-- Reversing the winding of every triangle (swapping the last two vertices),
which globally inverts the face normals. -/
def reverseWinding (tris : List (Vec3 × Vec3 × Vec3)) : List (Vec3 × Vec3 × Vec3) :=
  tris.map (fun t => (t.1, t.2.2, t.2.1))

theorem triSignedVolume_swap (t : Vec3 × Vec3 × Vec3) :
    triSignedVolume (t.1, t.2.2, t.2.1) = -triSignedVolume t := by
  unfold triSignedVolume Vec3.dot Vec3.cross
  ring

theorem calc_volume_reverseWinding (tris : List (Vec3 × Vec3 × Vec3)) :
    calc_volume (reverseWinding tris) = -calc_volume tris := by
  unfold calc_volume reverseWinding
  induction tris with
  | nil => simp
  | cons t ts ih =>
    simp only [List.map_cons, List.sum_cons, ih, triSignedVolume_swap]
    ring

/-- A single positively-oriented triangle and its winding-reversed copy. -/
def posTriangle : List (Vec3 × Vec3 × Vec3) := [(⟨1, 0, 0⟩, ⟨0, 1, 0⟩, ⟨0, 0, 1⟩)]

def negTriangle : List (Vec3 × Vec3 × Vec3) := [(⟨1, 0, 0⟩, ⟨0, 0, 1⟩, ⟨0, 1, 0⟩)]

/-- C6 counterexample: two triangle lists whose raw signed sums have opposite
signs produce identical calculate_volume results, so the raw sign is not
preserved and no diagnostic of it is available to the caller. -/
theorem C6_sign_lost_counterexample :
    calc_volume posTriangle = 1 / 6
    ∧ calc_volume negTriangle = -(1 / 6)
    ∧ calculate_volume none true posTriangle = calculate_volume none true negTriangle := by
  have h1 : calc_volume posTriangle = 1 / 6 := by
    simp [calc_volume, posTriangle, triSignedVolume, Vec3.dot, Vec3.cross]
  have h2 : calc_volume negTriangle = -(1 / 6) := by
    simp [calc_volume, negTriangle, triSignedVolume, Vec3.dot, Vec3.cross]
    norm_num
  refine ⟨h1, h2, ?_⟩
  simp only [calculate_volume, if_pos, h1, h2]
  norm_num

/-- C6 amended: calculate_volume reports the absolute value of the signed
tetrahedron sum (scaled to cm³) as the usable volume, and the raw sign is
discarded: globally inverting the winding leaves the result unchanged, so the
sign is not available to the caller. -/
theorem C6_abs_volume (tris : List (Vec3 × Vec3 × Vec3)) :
    calculate_volume none true tris = some (|calc_volume tris| / 1000)
    ∧ calculate_volume none true (reverseWinding tris) = calculate_volume none true tris := by
  refine ⟨rfl, ?_⟩
  simp only [calculate_volume, if_pos, calc_volume_reverseWinding, abs_neg]

/-- The empty mesh: zero vertices, no edges, no faces. -/
def emptyMesh : BMesh 0 :=
  { vertManifold := fun v => v.elim0
    vertLinkFaces := fun v => v.elim0
    edges := []
    faces := [] }

/-- C7 counterexample: on an empty mesh the bmesh fallback reports volume 0,
a `some` value, not the distinct unavailable outcome `none` the claim
requires. -/
theorem C7_empty_volume_counterexample :
    calculate_volume none true [] = some 0
    ∧ calculate_volume none true [] ≠ none := by
  have h : calculate_volume none true [] = some 0 := by
    simp [calculate_volume, calc_volume]
  exact ⟨h, by simp [h]⟩

/-- C7 amended: the analyzers return zero/empty results on the empty mesh
without failing (all counters 0, vacuously manifold, zero islands); area is
unavailable (None) when the toolbox is absent; but volume is reported by the
bmesh fallback as 0, not as the distinct unavailable outcome. -/
theorem C7_empty_mesh_results :
    analyze_mesh emptyMesh =
      { non_manifold_edges := 0
        non_manifold_verts := 0
        loose_geometry := 0
        flipped_normals := 0
        intersecting_faces := 0
        zero_area_faces := 0
        island_count := 0 }
    ∧ (analyze_mesh emptyMesh).is_manifold = true
    ∧ count_islands emptyMesh = 0
    ∧ calculate_volume none true [] = some 0
    ∧ calculate_area none = none := by
  refine ⟨rfl, rfl, rfl, ?_, rfl⟩
  simp [calculate_volume, calc_volume]

/-- C8. When the Print3D toolbox is absent (all operator calls raise),
check_intersections returns 0, calculate_area returns None, and
calculate_volume falls back to the bmesh tetrahedron sum; no path fails. -/
theorem C8_graceful_absence (tris : List (Vec3 × Vec3 × Vec3)) :
    check_intersections none = 0
    ∧ calculate_area none = none
    ∧ calculate_volume none true tris = some (|calc_volume tris| / 1000) :=
  ⟨rfl, rfl, rfl⟩

end Metrics

end BlenderHelpers
